import Mathlib

/-
Shallow embedding of the minesweeper rules engine
(src/position.rs, src/status.rs, src/error.rs, src/core.rs).

Machine integers: `usize` is modelled as `Nat` together with the explicit
bound `USIZE_MAX = 2^64 - 1` at the points where Rust's checked arithmetic
consults it; `isize` is modelled as `Int` with the explicit bounds
`ISIZE_MIN = -2^63` and `ISIZE_MAX = 2^63 - 1`.  `HashSet<Position>` is
modelled as `Finset Position` (the code only uses insert / remove /
contains / len, which are order-insensitive).  Mutating methods taking
`&mut self` are embedded as functions returning the pair
(returned `Result`, state after the call); `check_proximity` takes `&self`
in Rust and is embedded as a pure query.
-/

deriving instance DecidableEq for Except

namespace Minesweeper

def USIZE_MAX : Nat := 2 ^ 64 - 1

def ISIZE_MIN : Int := -(2 ^ 63)

def ISIZE_MAX : Int := 2 ^ 63 - 1

/-- src/position.rs: `pub struct Position(pub(crate) usize, pub(crate) usize)`.
Field `x` is the Rust field `.0`, field `y` is `.1`. -/
structure Position where
  x : Nat
  y : Nat
deriving DecidableEq, Repr

/-- src/status.rs: the four game phases. -/
inductive Status
  | Configuration
  | InProgress
  | Won
  | Lost
deriving DecidableEq, Repr

/-- src/error.rs: the closed error taxonomy. -/
inductive GameError
  | IncorrectStatus (actual : Status) (expected : Status)
  | ZeroFieldArea
  | OutOfBounds
  | AlreadyMined
  | AlreadyOpened
  | AlreadyFlagged
deriving DecidableEq, Repr

/-- Rust `isize::checked_neg`: fails exactly at `isize::MIN`. -/
def checked_neg (d : Int) : Option Int :=
  if d = ISIZE_MIN then none else some (-d)

/-- Rust `usize::checked_sub`: `none` on underflow. -/
def usize_checked_sub (a b : Nat) : Option Nat :=
  if b ≤ a then some (a - b) else none

/-- Rust `usize::checked_add`: `none` when the sum exceeds `usize::MAX`. -/
def usize_checked_add (a b : Nat) : Option Nat :=
  if a + b ≤ USIZE_MAX then some (a + b) else none

/-- One coordinate of `Position::get_relative` (src/position.rs lines 11-21
and 27-37).  For a negative offset the code computes
`c.checked_sub(d.checked_neg().unwrap_or(0).try_into().unwrap_or(usize::MIN))`:
`checked_neg` fails only at `isize::MIN`, in which case `unwrap_or(0)`
substitutes 0; the `try_into` of a non-negative `isize` into `usize` always
succeeds, so its `unwrap_or` arm is dead.  For a non-negative offset the
code computes `c.checked_add(d.try_into().unwrap_or(usize::MAX))`, and again
the `try_into` always succeeds. -/
def coord_shift (c : Nat) (d : Int) : Option Nat :=
  if d < 0 then
    usize_checked_sub c ((checked_neg d).getD 0).toNat
  else
    usize_checked_add c d.toNat

/-- src/position.rs: `Position::get_relative(x_dif, y_dif)`.  The x
coordinate is computed and checked first, then the y coordinate. -/
def Position.get_relative (p : Position) (x_dif y_dif : Int) :
    Except GameError Position :=
  match coord_shift p.x x_dif with
  | none => .error .OutOfBounds
  | some x =>
    match coord_shift p.y y_dif with
    | none => .error .OutOfBounds
    | some y => .ok ⟨x, y⟩

/-- src/core.rs: the `Game` aggregate. -/
structure Game where
  width : Nat
  height : Nat
  mine_positions : Finset Position
  open_positions : Finset Position
  flag_positions : Finset Position
  status : Status
deriving DecidableEq

/-- src/core.rs: `Game::new`. -/
def Game.new (width height : Nat) : Except GameError Game :=
  if width = 0 ∨ height = 0 then .error .ZeroFieldArea
  else .ok ⟨width, height, ∅, ∅, ∅, .Configuration⟩

/-- src/core.rs: `Game::is_in_bounds`, with Rust's `usize` subtraction
`width - 1` rendered as `Nat` truncated subtraction (every `Game` built by
`Game::new` has `width ≥ 1` and `height ≥ 1`, where the two agree). -/
def Game.is_in_bounds (g : Game) (p : Position) : Bool :=
  if p.x > g.width - 1 then false
  else if p.y > g.height - 1 then false
  else true

/-- src/core.rs: `Game::mine`.  The pair is (returned result, state after
the call); every `Err` is returned before any mutation. -/
def Game.mine (g : Game) (p : Position) : Except GameError Unit × Game :=
  if g.status ≠ .Configuration then
    (.error (.IncorrectStatus g.status .Configuration), g)
  else if !g.is_in_bounds p then (.error .OutOfBounds, g)
  else if p ∈ g.mine_positions then (.error .AlreadyMined, g)
  else (.ok (), { g with mine_positions := insert p g.mine_positions })

/-- src/core.rs: `Game::start`. -/
def Game.start (g : Game) : Except GameError Unit × Game :=
  if g.status ≠ .Configuration then
    (.error (.IncorrectStatus g.status .Configuration), g)
  else (.ok (), { g with status := .InProgress })

/-- src/core.rs: `Game::open`.  The flag, if present, is removed before the
mine check; on a mine the status becomes `Lost` and the function returns
`Ok` without touching `open_positions`; otherwise the position is inserted
and the win condition `|open| + |flag| = width * height` is tested. -/
def Game.«open» (g : Game) (p : Position) : Except GameError Unit × Game :=
  if g.status ≠ .InProgress then
    (.error (.IncorrectStatus g.status .InProgress), g)
  else if !g.is_in_bounds p then (.error .OutOfBounds, g)
  else if p ∈ g.open_positions then (.error .AlreadyOpened, g)
  else
    let flags :=
      if p ∈ g.flag_positions then g.flag_positions.erase p
      else g.flag_positions
    if p ∈ g.mine_positions then
      (.ok (), { g with flag_positions := flags, status := .Lost })
    else
      let opens := insert p g.open_positions
      if opens.card + flags.card = g.width * g.height then
        (.ok (), { g with open_positions := opens, flag_positions := flags,
                          status := .Won })
      else
        (.ok (), { g with open_positions := opens, flag_positions := flags })

/-- src/core.rs: `Game::flag`. -/
def Game.flag (g : Game) (p : Position) : Except GameError Unit × Game :=
  if g.status ≠ .InProgress then
    (.error (.IncorrectStatus g.status .InProgress), g)
  else if !g.is_in_bounds p then (.error .OutOfBounds, g)
  else if p ∈ g.open_positions then (.error .AlreadyOpened, g)
  else if p ∈ g.flag_positions then (.error .AlreadyFlagged, g)
  else
    let flags := insert p g.flag_positions
    if g.open_positions.card + flags.card = g.width * g.height then
      (.ok (), { g with flag_positions := flags, status := .Won })
    else
      (.ok (), { g with flag_positions := flags })

/-- src/core.rs lines 144-153: the eight relative neighbour offsets, in
source order. -/
def relative_coordinates : List (Int × Int) :=
  [(-1, -1), (0, -1), (1, -1), (-1, 0), (1, 0), (-1, 1), (0, 1), (1, 1)]

/-- src/core.rs: `Game::check_proximity`.  Takes `&self` in Rust, so it
cannot mutate the game; it is embedded as a pure query.  The `u8` counter
is modelled as `Nat` (it is bounded by the list length 8, far below
`u8::MAX`).  A neighbour whose coordinate computation fails is silently
skipped. -/
def Game.check_proximity (g : Game) (p : Position) : Except GameError Nat :=
  if g.status ≠ .InProgress then
    .error (.IncorrectStatus g.status .InProgress)
  else if !g.is_in_bounds p then .error .OutOfBounds
  else
    .ok (relative_coordinates.foldl
      (fun acc d =>
        match p.get_relative d.1 d.2 with
        | .ok neighbour =>
          if g.is_in_bounds neighbour ∧ neighbour ∈ g.mine_positions then
            acc + 1
          else acc
        | .error _ => acc)
      0)

/-- Game states reachable by `Game::new` followed by any sequence of API
calls.  `check_proximity` takes `&self` in Rust, so its step leaves the
state untouched. -/
inductive Reachable : Game → Prop
  | init (width height : Nat) (g : Game) :
      Game.new width height = .ok g → Reachable g
  | step_mine (g : Game) (p : Position) : Reachable g → Reachable (g.mine p).2
  | step_start (g : Game) : Reachable g → Reachable (g.start).2
  | step_open (g : Game) (p : Position) : Reachable g → Reachable (g.«open» p).2
  | step_flag (g : Game) (p : Position) : Reachable g → Reachable (g.flag p).2
  | step_check_proximity (g : Game) (p : Position) : Reachable g → Reachable g

/-- The offset actually applied by `coord_shift`: `isize::MIN` collapses
to 0 because `checked_neg` fails there and `unwrap_or(0)` substitutes
zero. -/
def eff_offset (d : Int) : Int := if d = ISIZE_MIN then 0 else d

/-- The inductive state invariant of the engine: open cells are absent in
`Configuration`, the open/flag and open/mine sets are disjoint, and a
`Won` game accounts for every cell. -/
def Inv (g : Game) : Prop :=
  (g.status = .Configuration → g.open_positions = ∅) ∧
  g.open_positions ∩ g.flag_positions = ∅ ∧
  g.open_positions ∩ g.mine_positions = ∅ ∧
  (g.status = .Won →
    g.open_positions.card + g.flag_positions.card = g.width * g.height)

/-- The status transition relation the spec allows for a single call. -/
def status_forward (s t : Status) : Prop :=
  t = s ∨ (s = .Configuration ∧ t = .InProgress) ∨
    (s = .InProgress ∧ (t = .Won ∨ t = .Lost))

/-- Claim-side description of one neighbour probe of `check_proximity`:
the offset is applied with exact integer arithmetic, a negative resulting
coordinate means the neighbour is skipped, and otherwise the neighbour
counts iff it is in-bounds and mined. -/
def neighbour_is_mine (g : Game) (p : Position) (d : Int × Int) : Bool :=
  decide (0 ≤ (p.x : Int) + d.1) && decide (0 ≤ (p.y : Int) + d.2) &&
    g.is_in_bounds ⟨((p.x : Int) + d.1).toNat, ((p.y : Int) + d.2).toNat⟩ &&
    decide ((⟨((p.x : Int) + d.1).toNat, ((p.y : Int) + d.2).toNat⟩ : Position)
      ∈ g.mine_positions)

def c1_game : Game := ⟨1, 2, ∅, ∅, ∅, .InProgress⟩

def c3_start : Game := ⟨1, 2, ∅, ∅, ∅, .Configuration⟩

def c4_start : Game := ⟨1, 1, ∅, ∅, ∅, .Configuration⟩

def c5_start : Game := ⟨1, 2, ∅, ∅, ∅, .Configuration⟩

def c7_game : Game := ⟨2, 2, {⟨0, 0⟩}, ∅, ∅, .Configuration⟩

def c8_game : Game := ⟨5, 5, {⟨2, 3⟩, ⟨4, 4⟩}, ∅, ∅, .InProgress⟩

def c9_game : Game := ⟨3, 3, {⟨1, 1⟩}, ∅, ∅, .InProgress⟩

def c10_start : Game := ⟨2, 2, ∅, ∅, ∅, .Configuration⟩

lemma coord_shift_eq (c : Nat) (d : Int) (hc : c ≤ USIZE_MAX) :
    coord_shift c d =
      if (c : Int) + eff_offset d < 0 ∨ (USIZE_MAX : Int) < (c : Int) + eff_offset d
      then none
      else some ((c : Int) + eff_offset d).toNat := by
  unfold USIZE_MAX at hc
  unfold coord_shift eff_offset checked_neg usize_checked_sub usize_checked_add
    USIZE_MAX ISIZE_MIN
  split_ifs <;> simp_all <;> omega

lemma cond_erase (s : Finset Position) (p : Position) :
    (if p ∈ s then s.erase p else s) = s.erase p := by
  split
  · rfl
  · exact (Finset.erase_eq_of_not_mem (by assumption)).symm

lemma inter_eq_empty_iff (s t : Finset Position) :
    s ∩ t = ∅ ↔ ∀ q, q ∈ s → q ∉ t := by
  rw [← Finset.disjoint_iff_inter_eq_empty, Finset.disjoint_left]

lemma mine_error_frame (g : Game) (p : Position) (e : GameError) :
    (g.mine p).1 = .error e → (g.mine p).2 = g := by
  simp only [Game.mine]
  split_ifs <;> simp_all

lemma open_error_frame (g : Game) (p : Position) (e : GameError) :
    (g.«open» p).1 = .error e → (g.«open» p).2 = g := by
  simp only [Game.«open»]
  split_ifs <;> simp_all

lemma flag_error_frame (g : Game) (p : Position) (e : GameError) :
    (g.flag p).1 = .error e → (g.flag p).2 = g := by
  simp only [Game.flag]
  split_ifs <;> simp_all

/-- `Game::mine` either leaves the state unchanged or inserts one mine
while in `Configuration`. -/
lemma mine_result (g : Game) (p : Position) :
    (g.mine p).2 = g ∨
      (g.status = .Configuration ∧ p ∉ g.mine_positions ∧
        (g.mine p).2 = { g with mine_positions := insert p g.mine_positions }) := by
  simp only [Game.mine]
  split_ifs with h1 h2 h3
  · exact Or.inl rfl
  · exact Or.inl rfl
  · exact Or.inl rfl
  · exact Or.inr ⟨not_not.mp h1, h3, rfl⟩

/-- `Game::start` either leaves the state unchanged or moves
`Configuration` to `InProgress`. -/
lemma start_result (g : Game) :
    (g.start).2 = g ∨
      (g.status = .Configuration ∧
        (g.start).2 = { g with status := .InProgress }) := by
  simp only [Game.start]
  split_ifs with h1
  · exact Or.inl rfl
  · exact Or.inr ⟨not_not.mp h1, rfl⟩

/-- Case analysis of the state produced by `Game::open`. -/
lemma open_result (g : Game) (p : Position) :
    (g.«open» p).2 = g ∨
      (g.status = .InProgress ∧ p ∉ g.open_positions ∧ p ∈ g.mine_positions ∧
        (g.«open» p).2 =
          { g with flag_positions := g.flag_positions.erase p,
                   status := .Lost }) ∨
      (g.status = .InProgress ∧ p ∉ g.open_positions ∧ p ∉ g.mine_positions ∧
        (((g.«open» p).2 =
            { g with open_positions := insert p g.open_positions,
                     flag_positions := g.flag_positions.erase p,
                     status := .Won } ∧
          (insert p g.open_positions).card + (g.flag_positions.erase p).card =
            g.width * g.height) ∨
         ((g.«open» p).2 =
            { g with open_positions := insert p g.open_positions,
                     flag_positions := g.flag_positions.erase p } ∧
          (insert p g.open_positions).card + (g.flag_positions.erase p).card ≠
            g.width * g.height))) := by
  simp only [Game.«open», cond_erase]
  split_ifs with h1 h2 h3 h4 h5
  · exact Or.inl rfl
  · exact Or.inl rfl
  · exact Or.inl rfl
  · exact Or.inr (Or.inl ⟨not_not.mp h1, h3, h4, rfl⟩)
  · exact Or.inr (Or.inr ⟨not_not.mp h1, h3, h4, Or.inl ⟨rfl, h5⟩⟩)
  · exact Or.inr (Or.inr ⟨not_not.mp h1, h3, h4, Or.inr ⟨rfl, h5⟩⟩)

/-- Case analysis of the state produced by `Game::flag`. -/
lemma flag_result (g : Game) (p : Position) :
    (g.flag p).2 = g ∨
      (g.status = .InProgress ∧ p ∉ g.open_positions ∧ p ∉ g.flag_positions ∧
        (((g.flag p).2 =
            { g with flag_positions := insert p g.flag_positions,
                     status := .Won } ∧
          g.open_positions.card + (insert p g.flag_positions).card =
            g.width * g.height) ∨
         ((g.flag p).2 =
            { g with flag_positions := insert p g.flag_positions } ∧
          g.open_positions.card + (insert p g.flag_positions).card ≠
            g.width * g.height))) := by
  simp only [Game.flag]
  split_ifs with h1 h2 h3 h4 h5
  · exact Or.inl rfl
  · exact Or.inl rfl
  · exact Or.inl rfl
  · exact Or.inl rfl
  · exact Or.inr ⟨not_not.mp h1, h3, h4, Or.inl ⟨rfl, h5⟩⟩
  · exact Or.inr ⟨not_not.mp h1, h3, h4, Or.inr ⟨rfl, h5⟩⟩

lemma inv_init (w h : Nat) (g : Game) (hg : Game.new w h = .ok g) : Inv g := by
  unfold Game.new at hg
  split_ifs at hg
  injection hg with hg
  rw [← hg]
  simp [Inv]

lemma inv_mine (g : Game) (p : Position) (h : Inv g) : Inv (g.mine p).2 := by
  obtain ⟨h1, h2, h3, h4⟩ := h
  rcases mine_result g p with hcase | ⟨hs, hm, hcase⟩
  · rw [hcase]
    exact ⟨h1, h2, h3, h4⟩
  · have hopen : g.open_positions = ∅ := h1 hs
    rw [hcase]
    refine ⟨fun _ => hopen, h2, ?_, fun hw => ?_⟩
    · show g.open_positions ∩ insert p g.mine_positions = ∅
      rw [hopen]
      simp
    · exact absurd (hs.symm.trans hw) (by simp)

lemma inv_start (g : Game) (h : Inv g) : Inv (g.start).2 := by
  obtain ⟨h1, h2, h3, h4⟩ := h
  rcases start_result g with hcase | ⟨hs, hcase⟩
  · rw [hcase]
    exact ⟨h1, h2, h3, h4⟩
  · rw [hcase]
    exact ⟨fun hc => by simp at hc, h2, h3, fun hw => by simp at hw⟩

lemma inv_open (g : Game) (p : Position) (h : Inv g) : Inv (g.«open» p).2 := by
  obtain ⟨h1, h2, h3, h4⟩ := h
  rw [inter_eq_empty_iff] at h2 h3
  rcases open_result g p with hcase | ⟨hs, ho, hm, hcase⟩ |
    ⟨hs, ho, hm, ⟨hcase, hwin⟩ | ⟨hcase, hwin⟩⟩
  · rw [hcase]
    exact ⟨h1, (inter_eq_empty_iff _ _).mpr h2, (inter_eq_empty_iff _ _).mpr h3, h4⟩
  · rw [hcase]
    refine ⟨fun hc => by simp at hc, ?_, ?_, fun hw => by simp at hw⟩
    · show g.open_positions ∩ g.flag_positions.erase p = ∅
      rw [inter_eq_empty_iff]
      intro q hq hq'
      exact h2 q hq (Finset.mem_of_mem_erase hq')
    · show g.open_positions ∩ g.mine_positions = ∅
      rw [inter_eq_empty_iff]
      exact h3
  · rw [hcase]
    refine ⟨fun hc => by simp at hc, ?_, ?_, fun _ => hwin⟩
    · show insert p g.open_positions ∩ g.flag_positions.erase p = ∅
      rw [inter_eq_empty_iff]
      intro q hq hq'
      rcases Finset.mem_insert.mp hq with rfl | hq
      · exact (Finset.mem_erase.mp hq').1 rfl
      · exact h2 q hq (Finset.mem_of_mem_erase hq')
    · show insert p g.open_positions ∩ g.mine_positions = ∅
      rw [inter_eq_empty_iff]
      intro q hq hq'
      rcases Finset.mem_insert.mp hq with rfl | hq
      · exact hm hq'
      · exact h3 q hq hq'
  · rw [hcase]
    refine ⟨fun hc => absurd (hs.symm.trans hc) (by simp),
      ?_, ?_, fun hw => absurd (hs.symm.trans hw) (by simp)⟩
    · show insert p g.open_positions ∩ g.flag_positions.erase p = ∅
      rw [inter_eq_empty_iff]
      intro q hq hq'
      rcases Finset.mem_insert.mp hq with rfl | hq
      · exact (Finset.mem_erase.mp hq').1 rfl
      · exact h2 q hq (Finset.mem_of_mem_erase hq')
    · show insert p g.open_positions ∩ g.mine_positions = ∅
      rw [inter_eq_empty_iff]
      intro q hq hq'
      rcases Finset.mem_insert.mp hq with rfl | hq
      · exact hm hq'
      · exact h3 q hq hq'

lemma inv_flag (g : Game) (p : Position) (h : Inv g) : Inv (g.flag p).2 := by
  obtain ⟨h1, h2, h3, h4⟩ := h
  rw [inter_eq_empty_iff] at h2 h3
  rcases flag_result g p with hcase | ⟨hs, ho, hf, ⟨hcase, hwin⟩ | ⟨hcase, hwin⟩⟩
  · rw [hcase]
    exact ⟨h1, (inter_eq_empty_iff _ _).mpr h2, (inter_eq_empty_iff _ _).mpr h3, h4⟩
  · rw [hcase]
    refine ⟨fun hc => by simp at hc, ?_, ?_, fun _ => hwin⟩
    · show g.open_positions ∩ insert p g.flag_positions = ∅
      rw [inter_eq_empty_iff]
      intro q hq hq'
      rcases Finset.mem_insert.mp hq' with rfl | hq'
      · exact ho hq
      · exact h2 q hq hq'
    · show g.open_positions ∩ g.mine_positions = ∅
      rw [inter_eq_empty_iff]
      exact h3
  · rw [hcase]
    refine ⟨fun hc => absurd (hs.symm.trans hc) (by simp),
      ?_, ?_, fun hw => absurd (hs.symm.trans hw) (by simp)⟩
    · show g.open_positions ∩ insert p g.flag_positions = ∅
      rw [inter_eq_empty_iff]
      intro q hq hq'
      rcases Finset.mem_insert.mp hq' with rfl | hq'
      · exact ho hq
      · exact h2 q hq hq'
    · show g.open_positions ∩ g.mine_positions = ∅
      rw [inter_eq_empty_iff]
      exact h3

/-- The invariant holds in every reachable state. -/
lemma reachable_inv (g : Game) (h : Reachable g) : Inv g := by
  induction h with
  | init w hgt g hg => exact inv_init w hgt g hg
  | step_mine g p _ ih => exact inv_mine g p ih
  | step_start g _ ih => exact inv_start g ih
  | step_open g p _ ih => exact inv_open g p ih
  | step_flag g p _ ih => exact inv_flag g p ih
  | step_check_proximity g p _ ih => exact ih

lemma coord_shift_small (c : Nat) (d : Int) (hd : d = -1 ∨ d = 0 ∨ d = 1)
    (hc : c < USIZE_MAX) :
    coord_shift c d =
      if (c : Int) + d < 0 then none else some ((c : Int) + d).toNat := by
  rw [coord_shift_eq c d (le_of_lt hc)]
  have heff : eff_offset d = d := by
    rcases hd with rfl | rfl | rfl <;> norm_num [eff_offset, ISIZE_MIN]
  rw [heff]
  have hno : ¬ ((USIZE_MAX : Int) < (c : Int) + d) := by
    unfold USIZE_MAX at hc ⊢
    rcases hd with rfl | rfl | rfl <;> push_cast <;> omega
  simp [hno]

lemma prox_foldl (g : Game) (p : Position) (l : List (Int × Int)) (acc : Nat) :
    l.foldl
      (fun acc d =>
        match p.get_relative d.1 d.2 with
        | .ok neighbour =>
          if g.is_in_bounds neighbour ∧ neighbour ∈ g.mine_positions then
            acc + 1
          else acc
        | .error _ => acc)
      acc =
      acc + l.countP
        (fun d =>
          match p.get_relative d.1 d.2 with
          | .ok neighbour =>
            decide (g.is_in_bounds neighbour ∧ neighbour ∈ g.mine_positions)
          | .error _ => false) := by
  induction l generalizing acc with
  | nil => simp
  | cons d l ih =>
    rw [List.foldl_cons, List.countP_cons, ih]
    cases hrel : p.get_relative d.1 d.2 with
    | ok neighbour =>
      by_cases hcond : g.is_in_bounds neighbour ∧ neighbour ∈ g.mine_positions
      · simp only [hrel, if_pos hcond, decide_eq_true_eq, hcond]
        simp [hcond]
        omega
      · simp only [hrel]
        simp [hcond]
    | error e =>
      simp only [hrel]
      simp

lemma prox_pred_eq (g : Game) (p : Position)
    (hx : p.x < USIZE_MAX) (hy : p.y < USIZE_MAX)
    (d : Int × Int) (hd : d ∈ relative_coordinates) :
    (match p.get_relative d.1 d.2 with
      | .ok neighbour =>
        decide (g.is_in_bounds neighbour ∧ neighbour ∈ g.mine_positions)
      | .error _ => false) = neighbour_is_mine g p d := by
  have hd1 : d.1 = -1 ∨ d.1 = 0 ∨ d.1 = 1 := by
    fin_cases hd <;> simp
  have hd2 : d.2 = -1 ∨ d.2 = 0 ∨ d.2 = 1 := by
    fin_cases hd <;> simp
  unfold Position.get_relative
  rw [coord_shift_small p.x d.1 hd1 hx, coord_shift_small p.y d.2 hd2 hy]
  by_cases h1 : (p.x : Int) + d.1 < 0 <;> by_cases h2 : (p.y : Int) + d.2 < 0
  · simp [h1, h2, neighbour_is_mine, not_le.mpr h1]
  · simp [h1, h2, neighbour_is_mine, not_le.mpr h1]
  · simp [h1, h2, neighbour_is_mine, not_le.mpr h2]
  · simp [h1, h2, neighbour_is_mine, not_lt.mp h1, not_lt.mp h2,
      Bool.decide_and]

/-- C1: for an `InProgress` game and an in-bounds position not already
open, `open` succeeds; any flag on the position is removed; on a mine the
status becomes `Lost` and `open_positions` is untouched (the win condition
is not evaluated); otherwise the position is added to `open_positions` and
the status becomes `Won` exactly when afterwards
`|open_positions| + |flag_positions| = width * height`. -/
theorem C1_open_contract (g : Game) (p : Position)
    (hs : g.status = .InProgress) (hb : g.is_in_bounds p = true)
    (ho : p ∉ g.open_positions) :
    (g.«open» p).1 = .ok () ∧
    (g.«open» p).2.flag_positions = g.flag_positions.erase p ∧
    (p ∈ g.mine_positions →
      (g.«open» p).2.status = .Lost ∧
      (g.«open» p).2.open_positions = g.open_positions) ∧
    (p ∉ g.mine_positions →
      (g.«open» p).2.open_positions = insert p g.open_positions ∧
      ((g.«open» p).2.status = .Won ↔
        (g.«open» p).2.open_positions.card + (g.«open» p).2.flag_positions.card =
          g.width * g.height)) := by
  by_cases hm : p ∈ g.mine_positions
  · simp only [Game.«open», hs, hb, ho, hm, cond_erase, ne_eq,
      not_true_eq_false, not_false_eq_true, if_false, if_true, ite_true,
      ite_false, Bool.not_true, Bool.false_eq_true, reduceIte]
    simp [hm]
  · simp only [Game.«open», hs, hb, ho, hm, cond_erase, ne_eq,
      not_true_eq_false, not_false_eq_true, if_false, if_true, ite_true,
      ite_false, Bool.not_true, Bool.false_eq_true, reduceIte]
    by_cases hw : (insert p g.open_positions).card + (g.flag_positions.erase p).card
        = g.width * g.height
    · simp [hw]
    · simp [hw, hs]

theorem C1_witness : (c1_game.«open» ⟨0, 0⟩).1 = .ok () :=
  (C1_open_contract c1_game ⟨0, 0⟩ rfl (by decide) (by decide)).1

/-- C2 (amended): for representable coordinates and offsets,
`get_relative` applies the effective offset — which equals the given
offset except that `isize::MIN` is silently treated as 0 — and fails with
`OutOfBounds` exactly when an effective resulting coordinate would be
negative or exceed `usize::MAX`; the x coordinate is checked first. -/
theorem C2_get_relative_characterisation (p : Position) (dx dy : Int)
    (hx : p.x ≤ USIZE_MAX) (hy : p.y ≤ USIZE_MAX)
    (hdx1 : ISIZE_MIN ≤ dx) (hdx2 : dx ≤ ISIZE_MAX)
    (hdy1 : ISIZE_MIN ≤ dy) (hdy2 : dy ≤ ISIZE_MAX) :
    p.get_relative dx dy =
      if (p.x : Int) + eff_offset dx < 0 ∨
          (USIZE_MAX : Int) < (p.x : Int) + eff_offset dx
      then .error .OutOfBounds
      else if (p.y : Int) + eff_offset dy < 0 ∨
          (USIZE_MAX : Int) < (p.y : Int) + eff_offset dy
      then .error .OutOfBounds
      else .ok ⟨((p.x : Int) + eff_offset dx).toNat,
                ((p.y : Int) + eff_offset dy).toNat⟩ := by
  unfold Position.get_relative
  rw [coord_shift_eq p.x dx hx, coord_shift_eq p.y dy hy]
  split_ifs <;> rfl

/-- C2 is false as stated: at the most negative representable offset the
resulting coordinate would be negative, yet `get_relative` returns success
with the coordinate unshifted instead of failing with `OutOfBounds`. -/
theorem C2_counterexample :
    Position.get_relative ⟨2, 2⟩ ISIZE_MIN 0 = .ok ⟨2, 2⟩ ∧
      (2 : Int) + ISIZE_MIN < 0 := by
  constructor
  · decide
  · decide

theorem C2_witness :
    Position.get_relative ⟨2, 2⟩ (-1) (-1) = .ok ⟨1, 1⟩ := by
  have h := C2_get_relative_characterisation ⟨2, 2⟩ (-1) (-1) (by decide)
    (by decide) (by decide) (by decide) (by decide) (by decide)
  rw [h]
  decide

/-- C3: on a 1 by 2 board with a mine at (0,1), after `start()`,
`open((0,0))` succeeds, `flag((0,1))` succeeds, and the final status is
`Won`, not `Lost` — flagging a mined position counts toward the win
condition. -/
theorem C3_win_via_mine_flag :
    Game.new 1 2 = .ok c3_start ∧
    (c3_start.mine ⟨0, 1⟩).1 = .ok () ∧
    ((c3_start.mine ⟨0, 1⟩).2.start).1 = .ok () ∧
    (((c3_start.mine ⟨0, 1⟩).2.start).2.«open» ⟨0, 0⟩).1 = .ok () ∧
    ((((c3_start.mine ⟨0, 1⟩).2.start).2.«open» ⟨0, 0⟩).2.flag ⟨0, 1⟩).1
      = .ok () ∧
    ((((c3_start.mine ⟨0, 1⟩).2.start).2.«open» ⟨0, 0⟩).2.flag ⟨0, 1⟩).2.status
      = .Won ∧
    ((((c3_start.mine ⟨0, 1⟩).2.start).2.«open» ⟨0, 0⟩).2.flag ⟨0, 1⟩).2.status
      ≠ .Lost := by
  decide

/-- C4: in every state reachable by `new` followed by any sequence of
`mine`, `start`, `open`, `flag` and `check_proximity` calls, status `Won`
implies `|open_positions| + |flag_positions| = width * height`. -/
theorem C4_won_count (g : Game) (h : Reachable g) (hw : g.status = .Won) :
    g.open_positions.card + g.flag_positions.card = g.width * g.height :=
  (reachable_inv g h).2.2.2 hw

theorem C4_witness :
    (((c4_start.start).2.«open» ⟨0, 0⟩).2).open_positions.card +
        (((c4_start.start).2.«open» ⟨0, 0⟩).2).flag_positions.card =
      (((c4_start.start).2.«open» ⟨0, 0⟩).2).width *
        (((c4_start.start).2.«open» ⟨0, 0⟩).2).height :=
  C4_won_count _
    (Reachable.step_open _ ⟨0, 0⟩ (Reachable.step_start _
      (Reachable.init 1 1 c4_start (by decide))))
    (by decide)

/-- C5: in every reachable state, `open_positions` and `flag_positions`
are disjoint. -/
theorem C5_open_flag_disjoint (g : Game) (h : Reachable g) :
    g.open_positions ∩ g.flag_positions = ∅ :=
  (reachable_inv g h).2.1

theorem C5_witness :
    (((c5_start.start).2.flag ⟨0, 0⟩).2).open_positions ∩
        (((c5_start.start).2.flag ⟨0, 0⟩).2).flag_positions = ∅ :=
  C5_open_flag_disjoint _ (Reachable.step_flag _ ⟨0, 0⟩
    (Reachable.step_start _ (Reachable.init 1 2 c5_start (by decide))))

/-- C6: every single `mine`, `start`, `open` or `flag` call moves the
status only forward along Configuration to InProgress to Won/Lost: it
either keeps the status, moves `Configuration` to `InProgress`, or moves
`InProgress` to `Won` or `Lost`; it never returns to `Configuration`,
leaves a terminal state, or moves between `Won` and `Lost`
(`check_proximity` takes `&self` and cannot change the state at all). -/
theorem C6_status_forward_only (g : Game) (p : Position) :
    status_forward g.status (g.mine p).2.status ∧
    status_forward g.status (g.start).2.status ∧
    status_forward g.status (g.«open» p).2.status ∧
    status_forward g.status (g.flag p).2.status := by
  refine ⟨?_, ?_, ?_, ?_⟩
  · simp only [Game.mine]
    split_ifs <;> simp_all [status_forward]
  · simp only [Game.start]
    split_ifs <;> simp_all [status_forward]
  · simp only [Game.«open»]
    split_ifs <;> simp_all [status_forward]
  · simp only [Game.flag]
    split_ifs <;> simp_all [status_forward]

/-- C7: whenever `mine`, `open` or `flag` returns `AlreadyMined`,
`AlreadyOpened` or `AlreadyFlagged`, the whole game state is exactly as it
was before the call. -/
theorem C7_already_errors_noop (g : Game) (p : Position) (e : GameError)
    (he : e = .AlreadyMined ∨ e = .AlreadyOpened ∨ e = .AlreadyFlagged) :
    ((g.mine p).1 = .error e → (g.mine p).2 = g) ∧
    ((g.«open» p).1 = .error e → (g.«open» p).2 = g) ∧
    ((g.flag p).1 = .error e → (g.flag p).2 = g) :=
  ⟨mine_error_frame g p e, open_error_frame g p e, flag_error_frame g p e⟩

theorem C7_witness : (c7_game.mine ⟨0, 0⟩).2 = c7_game :=
  (C7_already_errors_noop c7_game ⟨0, 0⟩ .AlreadyMined (Or.inl rfl)).1
    (by decide)

/-- C8: for an `InProgress` game with representable dimensions and an
in-bounds position, `check_proximity` returns the number of the eight
relative offsets whose neighbour exists (no negative coordinate), is
in-bounds and is mined; the count is at most 8.  The Rust function takes
`&self`, so it cannot mutate the game and is embedded as a pure query. -/
theorem C8_check_proximity_count (g : Game) (p : Position)
    (hs : g.status = .InProgress) (hb : g.is_in_bounds p = true)
    (hwidth : g.width ≤ USIZE_MAX) (hheight : g.height ≤ USIZE_MAX) :
    g.check_proximity p =
      .ok (relative_coordinates.countP (neighbour_is_mine g p)) ∧
    relative_coordinates.countP (neighbour_is_mine g p) ≤ 8 := by
  have hxy : p.x ≤ g.width - 1 ∧ p.y ≤ g.height - 1 := by
    unfold Game.is_in_bounds at hb
    split_ifs at hb with hb1 hb2
    exact ⟨not_lt.mp hb1, not_lt.mp hb2⟩
  have hx : p.x < USIZE_MAX := by
    unfold USIZE_MAX at hwidth ⊢
    omega
  have hy : p.y < USIZE_MAX := by
    unfold USIZE_MAX at hheight ⊢
    omega
  constructor
  · unfold Game.check_proximity
    rw [if_neg (by simp [hs]), if_neg (by simp [hb]), prox_foldl]
    rw [List.countP_congr
      (fun d hd => by rw [prox_pred_eq g p hx hy d hd])]
    simp
  · exact le_trans (List.countP_le_length _) (by simp [relative_coordinates])

theorem C8_witness : c8_game.check_proximity ⟨3, 3⟩ = .ok 2 := by
  have h := (C8_check_proximity_count c8_game ⟨3, 3⟩ rfl (by decide)
    (by decide) (by decide)).1
  rw [h]
  decide

/-- C9: `start`, `open` and `flag` never modify `mine_positions`, and once
the status has left `Configuration` any `mine` call fails with
`IncorrectStatus(current, Configuration)` and leaves the whole state
unchanged (`check_proximity` takes `&self` and cannot modify anything). -/
theorem C9_mines_frozen (g : Game) (p : Position) :
    (g.start).2.mine_positions = g.mine_positions ∧
    ((g.«open» p).2).mine_positions = g.mine_positions ∧
    ((g.flag p).2).mine_positions = g.mine_positions ∧
    (g.status ≠ .Configuration →
      (g.mine p).1 = .error (.IncorrectStatus g.status .Configuration) ∧
      (g.mine p).2 = g) := by
  refine ⟨?_, ?_, ?_, fun hne => ?_⟩
  · simp only [Game.start]
    split_ifs <;> rfl
  · simp only [Game.«open»]
    split_ifs <;> rfl
  · simp only [Game.flag]
    split_ifs <;> rfl
  · simp only [Game.mine]
    rw [if_pos hne]
    exact ⟨rfl, rfl⟩

theorem C9_witness :
    (c9_game.mine ⟨2, 2⟩).1
        = .error (.IncorrectStatus c9_game.status .Configuration) ∧
      (c9_game.mine ⟨2, 2⟩).2 = c9_game :=
  (C9_mines_frozen c9_game ⟨2, 2⟩).2.2.2 (by decide)

/-- C10: in every reachable state, `open_positions` and `mine_positions`
are disjoint — `open` never inserts a mined position and `mine` only runs
in `Configuration`, where `open_positions` is still empty. -/
theorem C10_open_mine_disjoint (g : Game) (h : Reachable g) :
    g.open_positions ∩ g.mine_positions = ∅ :=
  (reachable_inv g h).2.2.1

theorem C10_witness :
    ((((c10_start.mine ⟨1, 1⟩).2.start).2.«open» ⟨0, 0⟩).2).open_positions ∩
        ((((c10_start.mine ⟨1, 1⟩).2.start).2.«open» ⟨0, 0⟩).2).mine_positions
      = ∅ :=
  C10_open_mine_disjoint _ (Reachable.step_open _ ⟨0, 0⟩
    (Reachable.step_start _ (Reachable.step_mine _ ⟨1, 1⟩
      (Reachable.init 2 2 c10_start (by decide)))))

end Minesweeper
